import Mathlib

/-!
Verification development for the ExpenseStore core of the SmartExpenseTracker
repository (src/SmartExpenseTracker.py, class ExpenseDB).

The sqlite-backed store is shallowly embedded: the table `expenses` is a list
of records plus the AUTOINCREMENT counter; SQL REAL amounts are modelled as
rationals; SQL TEXT comparison (`date >= ?`) is byte-lexicographic comparison
of the character lists; SQL `LIKE` with the case-insensitive default collation
is modelled by an executable pattern matcher over the pattern built by
`f"%{search}%"`; `GROUP BY category` with `SUM(amount)` is modelled as an
association list accumulated in row order.  A NULL `note` makes
`note LIKE ?` evaluate to SQL NULL, which a WHERE clause treats as false;
the embedding therefore returns `false` for a missing note.
-/

namespace ExpenseTracker

/-- ASCII lower-casing of a single character, as applied by sqlite's default
case-insensitive `LIKE` collation (only A-Z fold). -/
def lowerChar (c : Char) : Char :=
  if 65 ≤ c.toNat ∧ c.toNat ≤ 90 then Char.ofNat (c.toNat + 32) else c

/-- Byte-lexicographic strict comparison of character lists; this is the order
sqlite uses for TEXT comparison (memcmp on the UTF-8 encoding, which agrees
with code-point order). -/
def strLtB : List Char → List Char → Bool
  | [], [] => false
  | [], _ :: _ => true
  | _ :: _, [] => false
  | a :: as, b :: bs => decide (a.toNat < b.toNat) || (a == b && strLtB as bs)

/-- Non-strict TEXT comparison: `a <= b` iff not `b < a` (the order is total). -/
def strLeB (a b : String) : Bool := !(strLtB b.data a.data)

/-- Tries a predicate on a character list and on every proper suffix of it. -/
def tryAll (f : List Char → Bool) : List Char → Bool
  | [] => f []
  | c :: t => f (c :: t) || tryAll f t

/-- Executable semantics of the sqlite `LIKE` operator (no ESCAPE clause):
`%` matches any sequence, `_` matches any single character, and any other
pattern character matches case-insensitively (ASCII fold).  Defined by
structural recursion on the pattern; the `%` case searches every suffix of
the candidate string. -/
def likeMatch : List Char → List Char → Bool
  | [] => fun s => s.isEmpty
  | p :: ps =>
    let f := likeMatch ps
    fun s =>
      if p == '%' then tryAll f s
      else
        match s with
        | [] => false
        | c :: t =>
          if p == '_' then f t
          else (lowerChar p == lowerChar c) && f t

/-- The `LIKE` test performed by `fetch_expenses`: the column value is matched
against the pattern `f"%{search}%"`. -/
def likeContains (pat hay : String) : Bool :=
  likeMatch ("%" ++ pat ++ "%").data hay.data

/-- An expense row of the `expenses` table: `id INTEGER PRIMARY KEY
AUTOINCREMENT, amount REAL NOT NULL, category TEXT NOT NULL, date TEXT NOT
NULL, note TEXT`.  The nullable `note` column is an `Option`. -/
structure Expense where
  id : Nat
  amount : ℚ
  category : String
  date : String
  note : Option String
deriving DecidableEq

/-- State of one store: the rows of the `expenses` table in insertion order,
and the next id the AUTOINCREMENT column will assign.  With the
AUTOINCREMENT keyword sqlite never reuses an id after deletion, so the
counter only grows. -/
structure ExpenseDB where
  rows : List Expense
  nextId : Nat
deriving DecidableEq

/-- A fresh store as built by `create_table` on an empty database file; the
first AUTOINCREMENT id sqlite assigns is 1. -/
def initDB : ExpenseDB := { rows := [], nextId := 1 }

/-- `add_expense`: INSERT of one row; returns the new state and
`cur.lastrowid`, the id just assigned. -/
def add_expense (db : ExpenseDB) (amount : ℚ) (category date_str : String)
    (note : Option String) : ExpenseDB × Nat :=
  ({ rows := db.rows ++ [⟨db.nextId, amount, category, date_str, note⟩]
     nextId := db.nextId + 1 },
   db.nextId)

/-- `update_expense`: `UPDATE expenses SET amount = ?, category = ?, date = ?,
note = ? WHERE id = ?`; every row matching the id gets all four mutable
fields replaced, the id itself is untouched. -/
def update_expense (db : ExpenseDB) (expense_id : Nat) (amount : ℚ)
    (category date_str : String) (note : Option String) : ExpenseDB :=
  { db with
    rows := db.rows.map fun e =>
      if e.id = expense_id then
        { e with amount := amount, category := category, date := date_str,
                 note := note }
      else e }

/-- `delete_expense`: `DELETE FROM expenses WHERE id = ?`. -/
def delete_expense (db : ExpenseDB) (expense_id : Nat) : ExpenseDB :=
  { db with rows := db.rows.filter fun e => !(e.id == expense_id) }

/-- The `(category LIKE ? OR note LIKE ?)` clause with both parameters bound
to `f"%{search}%"`.  A NULL note gives SQL NULL, which never satisfies the
WHERE clause, hence `false`. -/
def searchClause (s : String) (e : Expense) : Bool :=
  likeContains s e.category ||
    (match e.note with
     | some n => likeContains s n
     | none => false)

/-- The WHERE filter assembled by `fetch_expenses`: each of the three clauses
is added only when the corresponding argument is truthy in Python, i.e.
present and not the empty string; the clauses are joined with AND. -/
def rowMatches (search start_date end_date : Option String) (e : Expense) :
    Bool :=
  (match search with
   | some s => if s = "" then true else searchClause s e
   | none => true) &&
  (match start_date with
   | some s => if s = "" then true else strLeB s e.date
   | none => true) &&
  (match end_date with
   | some s => if s = "" then true else strLeB e.date s
   | none => true)

/-- The `ORDER BY date DESC, id DESC` comparison: row `a` may precede row `b`
iff `a.date > b.date`, or the dates are equal and `a.id >= b.id`. -/
def rowLE (a b : Expense) : Bool :=
  strLtB b.date.data a.date.data || (a.date == b.date && Nat.ble b.id a.id)

/-- The ordering of the result list of `fetch_expenses`, as a relation. -/
def rowOrder (a b : Expense) : Prop := rowLE a b = true

instance : DecidableRel rowOrder := fun a b => instDecidableEqBool (rowLE a b) true

/-- Sorting step of `fetch_expenses` (the ORDER BY clause). -/
def sortRows (l : List Expense) : List Expense := List.insertionSort rowOrder l

/-- `fetch_expenses(search, start_date, end_date)`: SELECT with the assembled
WHERE filter, ordered by `date DESC, id DESC`; the whole result set is
returned. -/
def fetch_expenses (db : ExpenseDB) (search start_date end_date : Option String) :
    List Expense :=
  sortRows (db.rows.filter (rowMatches search start_date end_date))

/-- Zero-padded decimal rendering, as Python's `f"{n:04d}"` / `f"{n:02d}"`
produce for non-negative arguments. -/
def padZeros (w n : Nat) : String :=
  let s := toString n
  String.mk (List.replicate (w - s.length) '0') ++ s

/-- First day of the requested month, `f"{year:04d}-{month:02d}-01"`. -/
def monthStart (year month : Nat) : String :=
  padZeros 4 year ++ "-" ++ padZeros 2 month ++ "-01"

/-- First day of the next month: December rolls over to January 1 of
`year+1`, otherwise the month number is incremented. -/
def monthEnd (year month : Nat) : String :=
  if month == 12 then padZeros 4 (year + 1) ++ "-01-01"
  else padZeros 4 year ++ "-" ++ padZeros 2 (month + 1) ++ "-01"

/-- The `date >= start AND date < end` test of `monthly_summary` (half-open
interval on TEXT comparison). -/
def inMonth (year month : Nat) (d : String) : Bool :=
  strLeB (monthStart year month) d && strLtB d.data (monthEnd year month).data

/-- Accumulates one row into the per-category running sums; this models one
group of `GROUP BY category` with `SUM(amount)`. -/
def addToSummary : List (String × ℚ) → String → ℚ → List (String × ℚ)
  | [], cat, amt => [(cat, amt)]
  | (k, v) :: rest, cat, amt =>
    if k = cat then (k, v + amt) :: rest
    else (k, v) :: addToSummary rest cat amt

/-- `monthly_summary(year, month)`: `SELECT category, SUM(amount) FROM
expenses WHERE date >= ? AND date < ? GROUP BY category`, returned as a
category-to-total mapping (an association list with pairwise distinct
keys). -/
def monthly_summary (db : ExpenseDB) (year month : Nat) : List (String × ℚ) :=
  (db.rows.filter fun e => inMonth year month e.date).foldl
    (fun acc e => addToSummary acc e.category e.amount) []

/-- Sum of the amounts of the records of one category inside a row list. -/
def sumCat (c : String) (l : List Expense) : ℚ :=
  ((l.filter fun e => e.category == c).map fun e => e.amount).sum

/-- The store operations, for stating lifetime invariants. -/
inductive Op where
  | add (amount : ℚ) (category date_str : String) (note : Option String)
  | update (expense_id : Nat) (amount : ℚ) (category date_str : String)
      (note : Option String)
  | delete (expense_id : Nat)
  | fetch (search start_date end_date : Option String)
  | summary (year month : Nat)

/-- Effect of one operation on the store state.  `fetch_expenses` and
`monthly_summary` only execute SELECT statements, so they leave the table
unchanged. -/
def applyOp (db : ExpenseDB) : Op → ExpenseDB
  | Op.add a c d n => (add_expense db a c d n).1
  | Op.update i a c d n => update_expense db i a c d n
  | Op.delete i => delete_expense db i
  | Op.fetch _ _ _ => db
  | Op.summary _ _ => db

/-- Runs a sequence of operations. -/
def runOps (db : ExpenseDB) : List Op → ExpenseDB
  | [] => db
  | op :: t => runOps (applyOp db op) t

/-- Whether an operation is one of the two read-only operations. -/
def isRead : Op → Bool
  | Op.fetch _ _ _ => true
  | Op.summary _ _ => true
  | _ => false

/-- The ids handed out by the `create` calls of an operation sequence, in
call order. -/
def assignedIds (db : ExpenseDB) : List Op → List Nat
  | [] => []
  | op :: t =>
    match op with
    | Op.add a c d n => (add_expense db a c d n).2 :: assignedIds (applyOp db op) t
    | _ => assignedIds (applyOp db op) t

/-- Modelled from the spec: case-insensitive prefix test over ASCII-lowered
characters, building block of the spec's notion of case-insensitive
substring containment. -/
def isPrefixAt : List Char → List Char → Bool
  | [], _ => true
  | _ :: _, [] => false
  | a :: as, b :: bs => (a == b) && isPrefixAt as bs

/-- Modelled from the spec: `n` occurs as a contiguous segment of the second
list. -/
def isInfixAt (n : List Char) : List Char → Bool
  | [] => n.isEmpty
  | c :: t => isPrefixAt n (c :: t) || isInfixAt n t

/-- Modelled from the spec: the spec's search predicate, literal
case-insensitive substring containment ("record's category OR note contains
the substring, case-insensitive"). -/
def specContainsCI (needle hay : String) : Bool :=
  isInfixAt (needle.data.map lowerChar) (hay.data.map lowerChar)

/-- Modelled from the spec: the spec search predicate on the optional note
field; an absent note contains nothing. -/
def specNoteContains (s : String) : Option String → Bool
  | none => false
  | some n => specContainsCI s n

/-- True when the string contains neither of the two `LIKE` wildcard
characters. -/
def noWildcards (s : String) : Bool :=
  s.data.all fun ch => !(ch == '%') && !(ch == '_')

/-- Shared sample row for concrete witnesses. -/
def demoRow : Expense := ⟨1, 5, "Food", "2024-01-15", some "lunch"⟩

/-- Shared sample store for concrete witnesses. -/
def demoDB : ExpenseDB := ⟨[demoRow], 2⟩

/-- Sample row with an absent note, for the search counterexamples. -/
def cexRow : Expense := ⟨1, 1, "Food", "2024-01-01", none⟩

/-- Sample store for the search counterexamples. -/
def cexDB : ExpenseDB := ⟨[cexRow], 2⟩

/-! ### Order lemmas for the TEXT comparison and the ORDER BY relation -/

lemma char_toNat_inj {a b : Char} (h : a.toNat = b.toNat) : a = b := by
  have h2 := congrArg Char.ofNat h
  rwa [Char.ofNat_toNat, Char.ofNat_toNat] at h2

lemma strLtB_cons {a b : Char} {as bs : List Char} :
    strLtB (a :: as) (b :: bs) = true ↔
      a.toNat < b.toNat ∨ (a = b ∧ strLtB as bs = true) := by
  simp [strLtB, Bool.or_eq_true, Bool.and_eq_true, decide_eq_true_eq, beq_iff_eq]

lemma strLtB_trans :
    ∀ {x y z : List Char}, strLtB x y = true → strLtB y z = true →
      strLtB x z = true := by
  intro x
  induction x with
  | nil =>
    intro y z h1 h2
    cases y with
    | nil => simp [strLtB] at h1
    | cons b bs =>
      cases z with
      | nil => simp [strLtB] at h2
      | cons c cs => simp [strLtB]
  | cons a as ih =>
    intro y z h1 h2
    cases y with
    | nil => simp [strLtB] at h1
    | cons b bs =>
      cases z with
      | nil => simp [strLtB] at h2
      | cons c cs =>
        rw [strLtB_cons] at h1 h2 ⊢
        rcases h1 with hlt1 | ⟨heq1, hr1⟩
        · rcases h2 with hlt2 | ⟨heq2, hr2⟩
          · exact Or.inl (Nat.lt_trans hlt1 hlt2)
          · subst heq2; exact Or.inl hlt1
        · subst heq1
          rcases h2 with hlt2 | ⟨heq2, hr2⟩
          · exact Or.inl hlt2
          · subst heq2; exact Or.inr ⟨rfl, ih hr1 hr2⟩

lemma strLtB_total :
    ∀ x y : List Char, strLtB x y = true ∨ strLtB y x = true ∨ x = y := by
  intro x
  induction x with
  | nil =>
    intro y
    cases y with
    | nil => exact Or.inr (Or.inr rfl)
    | cons b bs => exact Or.inl (by simp [strLtB])
  | cons a as ih =>
    intro y
    cases y with
    | nil => exact Or.inr (Or.inl (by simp [strLtB]))
    | cons b bs =>
      rcases Nat.lt_trichotomy a.toNat b.toNat with hlt | heq | hgt
      · exact Or.inl (strLtB_cons.mpr (Or.inl hlt))
      · have hab : a = b := char_toNat_inj heq
        subst hab
        rcases ih bs with h | h | h
        · exact Or.inl (strLtB_cons.mpr (Or.inr ⟨rfl, h⟩))
        · exact Or.inr (Or.inl (strLtB_cons.mpr (Or.inr ⟨rfl, h⟩)))
        · subst h; exact Or.inr (Or.inr rfl)
      · exact Or.inr (Or.inl (strLtB_cons.mpr (Or.inl hgt)))

lemma string_data_inj {s t : String} (h : s.data = t.data) : s = t := by
  cases s; cases t; exact congrArg String.mk (by simpa using h)

lemma rowLE_eq_true {a b : Expense} :
    rowLE a b = true ↔
      strLtB b.date.data a.date.data = true ∨
        (a.date = b.date ∧ b.id ≤ a.id) := by
  simp [rowLE, Bool.or_eq_true, Bool.and_eq_true, beq_iff_eq, Nat.ble_eq]

instance : IsTotal Expense rowOrder := by
  constructor
  intro a b
  unfold rowOrder
  rcases strLtB_total a.date.data b.date.data with h | h | h
  · exact Or.inr (rowLE_eq_true.mpr (Or.inl h))
  · exact Or.inl (rowLE_eq_true.mpr (Or.inl h))
  · have hd : a.date = b.date := string_data_inj h
    rcases Nat.le_total a.id b.id with hle | hle
    · exact Or.inr (rowLE_eq_true.mpr (Or.inr ⟨hd.symm, hle⟩))
    · exact Or.inl (rowLE_eq_true.mpr (Or.inr ⟨hd, hle⟩))

instance : IsTrans Expense rowOrder := by
  constructor
  intro a b c hab hbc
  unfold rowOrder at hab hbc ⊢
  rw [rowLE_eq_true] at hab hbc ⊢
  rcases hab with h1 | ⟨hd1, hi1⟩
  · rcases hbc with h2 | ⟨hd2, hi2⟩
    · exact Or.inl (strLtB_trans h2 h1)
    · exact Or.inl (by rw [congrArg String.data hd2] at h1; exact h1)
  · rcases hbc with h2 | ⟨hd2, hi2⟩
    · exact Or.inl (by rw [congrArg String.data hd1]; exact h2)
    · exact Or.inr ⟨hd1.trans hd2, Nat.le_trans hi2 hi1⟩

/-! ### Membership in a fetch result -/

lemma mem_fetch_iff {db : ExpenseDB} {search start_date end_date : Option String}
    {e : Expense} :
    e ∈ fetch_expenses db search start_date end_date ↔
      e ∈ db.rows ∧ rowMatches search start_date end_date e = true := by
  unfold fetch_expenses sortRows
  rw [(List.perm_insertionSort rowOrder _).mem_iff]
  exact List.mem_filter

/-! ### Id assignment along an operation sequence -/

lemma applyOp_nextId_le (db : ExpenseDB) (op : Op) :
    db.nextId ≤ (applyOp db op).nextId := by
  cases op <;> simp [applyOp, add_expense, update_expense, delete_expense]

lemma assignedIds_lb :
    ∀ (ops : List Op) (db : ExpenseDB) (x : Nat),
      x ∈ assignedIds db ops → db.nextId ≤ x := by
  intro ops
  induction ops with
  | nil => intro db x hx; simp [assignedIds] at hx
  | cons op t ih =>
    intro db x hx
    cases op with
    | add a c d n =>
      simp only [assignedIds, add_expense, List.mem_cons] at hx
      rcases hx with rfl | hx
      · exact Nat.le_refl _
      · exact Nat.le_trans (applyOp_nextId_le db _) (ih _ _ hx)
    | update i a c d n =>
      simp only [assignedIds] at hx
      exact Nat.le_trans (applyOp_nextId_le db _) (ih _ _ hx)
    | delete i =>
      simp only [assignedIds] at hx
      exact Nat.le_trans (applyOp_nextId_le db _) (ih _ _ hx)
    | fetch s sa sb =>
      simp only [assignedIds] at hx
      exact Nat.le_trans (applyOp_nextId_le db _) (ih _ _ hx)
    | summary y m =>
      simp only [assignedIds] at hx
      exact Nat.le_trans (applyOp_nextId_le db _) (ih _ _ hx)

lemma assignedIds_pairwise :
    ∀ (ops : List Op) (db : ExpenseDB),
      List.Pairwise (fun i j => i < j) (assignedIds db ops) := by
  intro ops
  induction ops with
  | nil => intro db; simp [assignedIds]
  | cons op t ih =>
    intro db
    cases op with
    | add a c d n =>
      simp only [assignedIds]
      rw [List.pairwise_cons]
      refine ⟨?_, ih _⟩
      intro x hx
      have h1 : (applyOp db (Op.add a c d n)).nextId ≤ x :=
        assignedIds_lb t (applyOp db (Op.add a c d n)) x hx
      have h2 : db.nextId + 1 ≤ x := h1
      show db.nextId < x
      omega
    | update i a c d n => simp only [assignedIds]; exact ih _
    | delete i => simp only [assignedIds]; exact ih _
    | fetch s sa sb => simp only [assignedIds]; exact ih _
    | summary y m => simp only [assignedIds]; exact ih _

/-- C3: across the lifetime of one store instance (starting from a fresh
store), every `create` call returns an id strictly greater than every id
assigned before it; hence ids are never duplicated, and an id freed by a
deletion is never assigned again. -/
theorem create_ids_strictly_increasing (ops : List Op) :
    List.Pairwise (fun i j => i < j) (assignedIds initDB ops) :=
  assignedIds_pairwise ops initDB

/-- C4: with no filters, `fetch_expenses` returns every extant record exactly
once (it is a permutation of the stored rows), sorted by date descending and,
among equal dates, id descending; nothing is paginated away. -/
theorem list_no_filters_spec (db : ExpenseDB) :
    (fetch_expenses db none none none).Perm db.rows ∧
      List.Sorted rowOrder (fetch_expenses db none none none) := by
  have hfil : db.rows.filter (rowMatches none none none) = db.rows :=
    List.filter_eq_self.mpr (fun a _ => rfl)
  constructor
  · show (sortRows (db.rows.filter (rowMatches none none none))).Perm db.rows
    rw [hfil]
    exact List.perm_insertionSort rowOrder db.rows
  · exact List.sorted_insertionSort rowOrder _

/-- C7: after `create(amount, category, date, note)` returns its id, an
unfiltered `list()` contains a record carrying exactly that id and exactly
the four field values that were passed in. -/
theorem create_then_list_contains (db : ExpenseDB) (a : ℚ) (c d : String)
    (n : Option String) :
    (⟨(add_expense db a c d n).2, a, c, d, n⟩ : Expense) ∈
      fetch_expenses (add_expense db a c d n).1 none none none := by
  rw [mem_fetch_iff]
  exact ⟨by simp [add_expense], rfl⟩

/-- C6: `update` and `delete` on an id with no matching record leave the
store state entirely unchanged (a silent no-op, no error value exists); a
second `delete` of an already-deleted id is a no-op, and subsequent `list`
results are unaffected. -/
theorem missing_id_noop (db : ExpenseDB) (i : Nat)
    (h : ∀ e ∈ db.rows, e.id ≠ i) (a : ℚ) (c d : String) (n : Option String)
    (j : Nat) :
    update_expense db i a c d n = db ∧
      delete_expense db i = db ∧
      delete_expense (delete_expense db j) j = delete_expense db j ∧
      fetch_expenses (delete_expense db i) none none none =
        fetch_expenses db none none none := by
  have hdel : delete_expense db i = db := by
    unfold delete_expense
    have hrows : (db.rows.filter fun e => !(e.id == i)) = db.rows :=
      List.filter_eq_self.mpr (fun e he => by simpa using h e he)
    rw [hrows]
  have hupd : update_expense db i a c d n = db := by
    unfold update_expense
    have hrows : (db.rows.map fun e =>
        if e.id = i then
          { e with amount := a, category := c, date := d, note := n }
        else e) = db.rows := by
      have hcong : ∀ e ∈ db.rows, (if e.id = i then
          ({ e with amount := a, category := c, date := d, note := n } : Expense)
        else e) = e := fun e he => if_neg (h e he)
      calc (db.rows.map fun e =>
              if e.id = i then
                { e with amount := a, category := c, date := d, note := n }
              else e)
          = db.rows.map id := List.map_congr_left hcong
        _ = db.rows := List.map_id db.rows
    rw [hrows]
  have hdd : delete_expense (delete_expense db j) j = delete_expense db j := by
    unfold delete_expense
    rw [List.filter_filter]
    have : (List.filter (fun e => !(e.id == j) && !(e.id == j)) db.rows) =
        List.filter (fun e => !(e.id == j)) db.rows :=
      List.filter_congr (fun e _ => Bool.and_self _)
    rw [this]
  exact ⟨hupd, hdel, hdd, by rw [hdel]⟩

/-- C6 witness: a concrete store with one record (id 1); updating and
deleting id 5 changes nothing, and a repeated delete of id 1 is a no-op. -/
theorem missing_id_noop_witness :
    (∀ e ∈ demoDB.rows, e.id ≠ 5) ∧
      (update_expense demoDB 5 7 "Misc" "2024-02-02" none = demoDB ∧
        delete_expense demoDB 5 = demoDB ∧
        delete_expense (delete_expense demoDB 1) 1 = delete_expense demoDB 1 ∧
        fetch_expenses (delete_expense demoDB 5) none none none =
          fetch_expenses demoDB none none none) :=
  ⟨by decide, missing_id_noop demoDB 5 (by decide) 7 "Misc" "2024-02-02" none 1⟩

/-- C10: an empty string supplied for `search`, `start_date` or `end_date` is
falsy in Python, so no clause is added for it and the call behaves exactly
like the call with that argument omitted; with all three empty the result is
the unfiltered list. -/
theorem list_empty_string_filters (db : ExpenseDB) (x y : Option String) :
    fetch_expenses db (some "") x y = fetch_expenses db none x y ∧
      fetch_expenses db x (some "") y = fetch_expenses db x none y ∧
      fetch_expenses db x y (some "") = fetch_expenses db x y none ∧
      fetch_expenses db (some "") (some "") (some "") =
        fetch_expenses db none none none :=
  ⟨rfl, rfl, rfl, rfl⟩

/-- C5: a non-empty `start_date` keeps exactly the records with
`date >= start_date` and a non-empty `end_date` those with
`date <= end_date`, both under lexicographic TEXT comparison (a closed
interval), conjoined with whatever search filter is in effect; every record
with a date outside the closed interval is excluded. -/
theorem list_date_range_spec (db : ExpenseDB) (search : Option String)
    (sd ed : String) (h1 : sd ≠ "") (h2 : ed ≠ "") (e : Expense) :
    (e ∈ fetch_expenses db search (some sd) (some ed) ↔
       e ∈ fetch_expenses db search none none ∧
         strLeB sd e.date = true ∧ strLeB e.date ed = true) ∧
    (e ∈ fetch_expenses db search (some sd) none ↔
       e ∈ fetch_expenses db search none none ∧ strLeB sd e.date = true) ∧
    (e ∈ fetch_expenses db search none (some ed) ↔
       e ∈ fetch_expenses db search none none ∧ strLeB e.date ed = true) := by
  refine ⟨?_, ?_, ?_⟩ <;>
    · rw [mem_fetch_iff, mem_fetch_iff]
      simp only [rowMatches, h1, h2, if_neg, Bool.and_eq_true, Bool.and_true,
        and_assoc, if_false]

/-- C5 witness: in the concrete store, the record dated 2024-01-15 is in the
result of every variant of the range query for January 2024. -/
theorem list_date_range_spec_witness :
    (("2024-01-01" : String) ≠ "") ∧ (("2024-01-31" : String) ≠ "") ∧
      ((demoRow ∈ fetch_expenses demoDB none (some "2024-01-01") (some "2024-01-31") ↔
          demoRow ∈ fetch_expenses demoDB none none none ∧
            strLeB "2024-01-01" demoRow.date = true ∧
            strLeB demoRow.date "2024-01-31" = true) ∧
        (demoRow ∈ fetch_expenses demoDB none (some "2024-01-01") none ↔
          demoRow ∈ fetch_expenses demoDB none none none ∧
            strLeB "2024-01-01" demoRow.date = true) ∧
        (demoRow ∈ fetch_expenses demoDB none none (some "2024-01-31") ↔
          demoRow ∈ fetch_expenses demoDB none none none ∧
            strLeB demoRow.date "2024-01-31" = true)) :=
  ⟨by decide, by decide,
    list_date_range_spec demoDB none "2024-01-01" "2024-01-31"
      (by decide) (by decide) demoRow⟩

/-! ### Relating the LIKE pattern matcher to literal substring containment -/

lemma isPrefixAt_nil (n : List Char) : isPrefixAt n [] = n.isEmpty := by
  cases n <;> rfl

lemma tryAll_nilMatch : ∀ s, tryAll (fun t : List Char => t.isEmpty) s = true := by
  intro s
  induction s with
  | nil => rfl
  | cons c t ih => simp [tryAll, ih]

lemma tryAll_congr {f g : List Char → Bool} (h : ∀ t, f t = g t) :
    ∀ s, tryAll f s = tryAll g s := by
  intro s
  induction s with
  | nil => simp [tryAll, h]
  | cons c t ih => simp [tryAll, h, ih]

lemma noWildcards_forall {s : String} (hw : noWildcards s = true) :
    ∀ ch ∈ s.data, ch ≠ '%' ∧ ch ≠ '_' := by
  intro ch hch
  have h := List.all_eq_true.mp hw ch hch
  simpa only [Bool.and_eq_true, Bool.not_eq_true', beq_eq_false_iff_ne] using h

lemma likeMatch_plain (n : List Char) (hw : ∀ ch ∈ n, ch ≠ '%' ∧ ch ≠ '_') :
    ∀ s, likeMatch (n ++ ['%']) s = isPrefixAt (n.map lowerChar) (s.map lowerChar) := by
  induction n with
  | nil =>
    intro s
    show likeMatch ['%'] s = _
    simp [likeMatch, tryAll_nilMatch s, isPrefixAt]
  | cons a as ih =>
    intro s
    have ha := hw a (List.mem_cons_self a as)
    have has : ∀ ch ∈ as, ch ≠ '%' ∧ ch ≠ '_' :=
      fun ch hch => hw ch (List.mem_cons_of_mem a hch)
    have hb1 : (a == '%') = false := beq_eq_false_iff_ne.mpr ha.1
    have hb2 : (a == '_') = false := beq_eq_false_iff_ne.mpr ha.2
    cases s with
    | nil => simp [likeMatch, List.cons_append, hb1, isPrefixAt]
    | cons c t =>
      simp [likeMatch, List.cons_append, hb1, hb2, isPrefixAt, ih has t]

lemma tryAll_isPrefixAt (m : List Char) :
    ∀ s, tryAll (fun t => isPrefixAt m (t.map lowerChar)) s =
      isInfixAt m (s.map lowerChar) := by
  intro s
  induction s with
  | nil => simp [tryAll, isInfixAt, isPrefixAt_nil]
  | cons c t ih => simp [tryAll, isInfixAt, ih]

lemma likeContains_spec (p : String) (hw : noWildcards p = true) (hay : String) :
    likeContains p hay = specContainsCI p hay := by
  have hdata : ("%" ++ p ++ "%").data = '%' :: (p.data ++ ['%']) := rfl
  unfold likeContains specContainsCI
  rw [hdata]
  have hstep : likeMatch ('%' :: (p.data ++ ['%'])) hay.data =
      tryAll (likeMatch (p.data ++ ['%'])) hay.data := by
    simp [likeMatch]
  rw [hstep, tryAll_congr (likeMatch_plain p.data (noWildcards_forall hw)) hay.data,
    tryAll_isPrefixAt]

lemma searchClause_spec (s : String) (hw : noWildcards s = true) (e : Expense) :
    searchClause s e =
      (specContainsCI s e.category || specNoteContains s e.note) := by
  unfold searchClause
  cases hnote : e.note with
  | none => simp [hnote, specNoteContains, likeContains_spec s hw]
  | some nt => simp [hnote, specNoteContains, likeContains_spec s hw]

lemma mem_fetch_search_iff (db : ExpenseDB) (s : String) (h1 : s ≠ "")
    (h2 : noWildcards s = true) (e : Expense) :
    e ∈ fetch_expenses db (some s) none none ↔
      e ∈ db.rows ∧
        (specContainsCI s e.category = true ∨ specNoteContains s e.note = true) := by
  rw [mem_fetch_iff]
  simp only [rowMatches, h1, if_neg, if_false, Bool.and_true]
  rw [searchClause_spec s h2]
  simp [Bool.or_eq_true]

lemma likeContains_food (hay : String) :
    likeContains "Food" hay = likeContains "food" hay := by
  rw [likeContains_spec "Food" (by decide), likeContains_spec "food" (by decide)]
  unfold specContainsCI
  have hmap : ("Food".data.map lowerChar) = ("food".data.map lowerChar) := by decide
  rw [hmap]

/-- C2 counterexample: the search string is passed into an SQL LIKE pattern
unescaped, so its wildcard characters stay active.  Searching for
`o%d` returns the record with category `Food`, although neither its
category nor its (absent) note contains the substring `o%d`; the claim as
stated is therefore false for search strings containing wildcards. -/
theorem list_search_substring_cex :
    fetch_expenses cexDB (some "o%d") none none = [cexRow] ∧
      specContainsCI "o%d" cexRow.category = false ∧
      specNoteContains "o%d" cexRow.note = false ∧ ("o%d" : String) ≠ "" :=
  ⟨rfl, rfl, rfl, by decide⟩

/-- C2 (amended): for every non-empty search string without LIKE wildcard
characters, the search returns exactly the records whose category or note
contains the string as a case-insensitive substring; and the searches for
`Food` and `food` agree on every record. -/
theorem list_search_substring_spec (db : ExpenseDB) (s : String) (h1 : s ≠ "")
    (h2 : noWildcards s = true) (e x : Expense) :
    (e ∈ fetch_expenses db (some s) none none ↔
       e ∈ db.rows ∧
         (specContainsCI s e.category = true ∨ specNoteContains s e.note = true)) ∧
    (x ∈ fetch_expenses db (some "Food") none none ↔
       x ∈ fetch_expenses db (some "food") none none) := by
  refine ⟨mem_fetch_search_iff db s h1 h2 e, ?_⟩
  rw [mem_fetch_iff, mem_fetch_iff]
  have hsc : searchClause "Food" x = searchClause "food" x := by
    unfold searchClause
    cases hnote : x.note with
    | none => simp [likeContains_food]
    | some nt => simp [likeContains_food]
  simp only [rowMatches]
  rw [if_neg (by decide : ¬("Food" : String) = ""),
    if_neg (by decide : ¬("food" : String) = ""), hsc]

/-- C2 witness: the wildcard-free search string `food` finds the concrete
record categorised `Food`, and `Food` and `food` searches agree on it. -/
theorem list_search_substring_spec_witness :
    (("food" : String) ≠ "") ∧ noWildcards "food" = true ∧
      ((demoRow ∈ fetch_expenses demoDB (some "food") none none ↔
          demoRow ∈ demoDB.rows ∧
            (specContainsCI "food" demoRow.category = true ∨
              specNoteContains "food" demoRow.note = true)) ∧
        (demoRow ∈ fetch_expenses demoDB (some "Food") none none ↔
          demoRow ∈ fetch_expenses demoDB (some "food") none none)) :=
  ⟨by decide, by decide,
    list_search_substring_spec demoDB "food" (by decide) (by decide) demoRow demoRow⟩

/-- C9 counterexample: a record with an absent note and category `Food` is
returned for the search string `_`, although its category does not contain
`_` as a substring — the underscore acts as a LIKE wildcard, so the claimed
equivalence fails for wildcard search strings. -/
theorem list_search_null_note_cex :
    cexRow.note = none ∧
      fetch_expenses cexDB (some "_") none none = [cexRow] ∧
      specContainsCI "_" cexRow.category = false ∧ ("_" : String) ≠ "" :=
  ⟨rfl, rfl, rfl, by decide⟩

/-- C9 (amended): for every stored record whose note is absent and every
non-empty search string without LIKE wildcard characters, the search
includes the record iff its category contains the string case-insensitively;
an absent note never satisfies the search predicate. -/
theorem list_search_null_note_spec (db : ExpenseDB) (s : String) (h1 : s ≠ "")
    (h2 : noWildcards s = true) (e : Expense) (hn : e.note = none) :
    e ∈ fetch_expenses db (some s) none none ↔
      e ∈ db.rows ∧ specContainsCI s e.category = true := by
  rw [mem_fetch_search_iff db s h1 h2 e, hn]
  simp [specNoteContains]

/-- C9 witness: the note-less concrete record is found by searching `food`
through its category alone. -/
theorem list_search_null_note_spec_witness :
    (("food" : String) ≠ "") ∧ noWildcards "food" = true ∧ cexRow.note = none ∧
      (cexRow ∈ fetch_expenses cexDB (some "food") none none ↔
        cexRow ∈ cexDB.rows ∧ specContainsCI "food" cexRow.category = true) :=
  ⟨by decide, by decide, rfl,
    list_search_null_note_spec cexDB "food" (by decide) (by decide) cexRow rfl⟩

/-! ### Read operations do not touch the state -/

lemma applyOp_read (db : ExpenseDB) (op : Op) (h : isRead op = true) :
    applyOp db op = db := by
  cases op with
  | add a c d n => simp [isRead] at h
  | update i a c d n => simp [isRead] at h
  | delete i => simp [isRead] at h
  | fetch s a b => rfl
  | summary y m => rfl

lemma runOps_append_read :
    ∀ (l1 : List Op) (db : ExpenseDB) (l2 : List Op) (op : Op),
      isRead op = true → runOps db (l1 ++ op :: l2) = runOps db (l1 ++ l2) := by
  intro l1
  induction l1 with
  | nil =>
    intro db l2 op h
    show runOps (applyOp db op) l2 = runOps db l2
    rw [applyOp_read db op h]
  | cons o t ih =>
    intro db l2 op h
    show runOps (applyOp db o) (t ++ op :: l2) = runOps (applyOp db o) (t ++ l2)
    exact ih _ _ _ h

/-- C8: `fetch_expenses` and `monthly_summary` only run SELECT statements,
so they never create, modify or delete a record: inserting a read operation
anywhere into an operation sequence leaves the resulting store state
unchanged, and applying a read to any state returns that state. -/
theorem reads_leave_state_unchanged (db : ExpenseDB) (l1 l2 : List Op)
    (op : Op) (h : isRead op = true) (s a b : Option String) (y m : Nat) :
    runOps db (l1 ++ op :: l2) = runOps db (l1 ++ l2) ∧
      applyOp db (Op.fetch s a b) = db ∧ applyOp db (Op.summary y m) = db :=
  ⟨runOps_append_read l1 db l2 op h, rfl, rfl⟩

/-- C8 witness: inserting a fetch between a delete and the end of a concrete
run changes nothing. -/
theorem reads_leave_state_unchanged_witness :
    isRead (Op.fetch none none none) = true ∧
      (runOps demoDB ([Op.delete 1] ++ Op.fetch none none none :: []) =
          runOps demoDB ([Op.delete 1] ++ []) ∧
        applyOp demoDB (Op.fetch (some "food") none none) = demoDB ∧
        applyOp demoDB (Op.summary 2024 1) = demoDB) :=
  ⟨rfl, reads_leave_state_unchanged demoDB [Op.delete 1] [] (Op.fetch none none none)
    rfl (some "food") none none 2024 1⟩

/-! ### The GROUP BY accumulation of monthly_summary -/

lemma lookup_addToSummary (c cat : String) (amt : ℚ) :
    ∀ acc : List (String × ℚ),
      List.lookup c (addToSummary acc cat amt) =
        if c = cat then
          (match List.lookup c acc with
           | some v => some (v + amt)
           | none => some amt)
        else List.lookup c acc := by
  intro acc
  induction acc with
  | nil =>
    by_cases hc : c = cat
    · subst hc; simp [addToSummary, List.lookup]
    · have hb : (c == cat) = false := beq_eq_false_iff_ne.mpr hc
      simp [addToSummary, List.lookup, hc, hb]
  | cons kv rest ih =>
    obtain ⟨k, v⟩ := kv
    by_cases hk : k = cat
    · subst hk
      by_cases hc : c = k
      · subst hc; simp [addToSummary, List.lookup]
      · have hb : (c == k) = false := beq_eq_false_iff_ne.mpr hc
        simp [addToSummary, List.lookup, hc, hb]
    · by_cases hc : c = k
      · subst hc
        simp [addToSummary, List.lookup, hk]
      · have hb : (c == k) = false := beq_eq_false_iff_ne.mpr hc
        simp [addToSummary, List.lookup, hk, hc, hb, ih]

lemma lookup_foldl (c : String) :
    ∀ (l : List Expense) (acc : List (String × ℚ)),
      List.lookup c
          (l.foldl (fun acc e => addToSummary acc e.category e.amount) acc) =
        match List.lookup c acc with
        | some v => some (v + sumCat c l)
        | none =>
          if (l.filter fun e => e.category == c) = [] then none
          else some (sumCat c l) := by
  intro l
  induction l with
  | nil =>
    intro acc
    cases hacc : List.lookup c acc with
    | none => simp [hacc, sumCat]
    | some v => simp [hacc, sumCat]
  | cons e t ih =>
    intro acc
    show List.lookup c
        (t.foldl (fun acc e => addToSummary acc e.category e.amount)
          (addToSummary acc e.category e.amount)) = _
    rw [ih (addToSummary acc e.category e.amount), lookup_addToSummary]
    by_cases hc : c = e.category
    · have hbeq : (e.category == c) = true := beq_iff_eq.mpr hc.symm
      cases hacc : List.lookup c acc with
      | some v => simp [hc, hacc, sumCat, List.filter_cons, hbeq, add_assoc]
      | none => simp [hc, hacc, sumCat, List.filter_cons, hbeq]
    · have hbeq : (e.category == c) = false :=
        beq_eq_false_iff_ne.mpr (fun hh => hc hh.symm)
      simp [hc, sumCat, List.filter_cons, hbeq]

lemma addToSummary_ne_nil (acc : List (String × ℚ)) (cat : String) (amt : ℚ) :
    addToSummary acc cat amt ≠ [] := by
  cases acc with
  | nil => simp [addToSummary]
  | cons kv rest =>
    obtain ⟨k, v⟩ := kv
    by_cases hk : k = cat <;> simp [addToSummary, hk]

lemma foldl_addToSummary_ne_nil :
    ∀ (l : List Expense) (acc : List (String × ℚ)), acc ≠ [] →
      l.foldl (fun acc e => addToSummary acc e.category e.amount) acc ≠ [] := by
  intro l
  induction l with
  | nil => intro acc h; simpa using h
  | cons e t ih => intro acc h; exact ih _ (addToSummary_ne_nil _ _ _)

lemma monthly_summary_eq_nil_iff (db : ExpenseDB) (year month : Nat) :
    monthly_summary db year month = [] ↔
      (db.rows.filter fun e => inMonth year month e.date) = [] := by
  unfold monthly_summary
  cases hM : (db.rows.filter fun e => inMonth year month e.date) with
  | nil => simp
  | cons e t =>
    simp only [List.foldl_cons]
    constructor
    · intro h
      exact absurd h (foldl_addToSummary_ne_nil t _ (addToSummary_ne_nil [] _ _))
    · intro h
      exact absurd h (List.cons_ne_nil e t)

/-- C1: `monthly_summary(year, month)` maps a category to a value exactly
when at least one record of that category has its date in the half-open
interval between `monthStart` (the month's first day) and `monthEnd` (the
next month's first day, January 1 of `year+1` for December), and the value
is then the sum of the amounts of the records of that category with a date
in that interval; a category with no matching record is absent, and the
mapping is empty when no record at all matches. -/
theorem monthly_summary_spec (db : ExpenseDB) (year month : Nat) (c : String)
    (v : ℚ) :
    (List.lookup c (monthly_summary db year month) = some v ↔
       ((db.rows.filter fun e => inMonth year month e.date).filter
           fun e => e.category == c) ≠ [] ∧
         v = sumCat c (db.rows.filter fun e => inMonth year month e.date)) ∧
    (monthly_summary db year month = [] ↔
       (db.rows.filter fun e => inMonth year month e.date) = []) := by
  refine ⟨?_, monthly_summary_eq_nil_iff db year month⟩
  have hlk : List.lookup c (monthly_summary db year month) =
      (if ((db.rows.filter fun e => inMonth year month e.date).filter
            fun e => e.category == c) = [] then none
       else some (sumCat c (db.rows.filter fun e => inMonth year month e.date))) := by
    unfold monthly_summary
    rw [lookup_foldl]
    rfl
  rw [hlk]
  by_cases hnil : ((db.rows.filter fun e => inMonth year month e.date).filter
      fun e => e.category == c) = []
  · rw [if_pos hnil]
    constructor
    · intro h; exact Option.noConfusion h
    · rintro ⟨hne, hv⟩; exact absurd hnil hne
  · rw [if_neg hnil]
    constructor
    · intro h; exact ⟨hnil, (Option.some.inj h).symm⟩
    · rintro ⟨hne, hv⟩; rw [hv]

end ExpenseTracker
